import Mathlib

/-!
Verification of the transaction classification and budget aggregation core
of `src/App.tsx` (a single-file personal finance tracker).

Modelling conventions of the shallow embedding:
 - JS strings are `List Char` (`Str`); JS numbers are `ℚ` (the claims are
   about the arithmetic structure of the code, not binary floating point);
 - JS `undefined`/`null` option fields are `Option _`;
 - the JS runtime environment is fixed at the UTC timezone, so the local
   date accessors used by `ym` coincide with the UTC calendar fields of a
   parsed ISO date;
 - JS objects used as string-keyed maps are association lists with the
   object's key insertion behaviour (update in place, append new keys);
 - `Array.prototype.sort` with comparator `(a, b) => a.priority - b.priority`
   is a stable ascending sort by `priority`; it is embedded by
   `List.insertionSort` with the reflexive priority order, which computes
   exactly that stable sort.
-/

namespace Financeiro

/-- Text is modelled as a list of characters. -/
abbrev Str := List Char

/-- The characters of a string literal. -/
def chars (s : String) : Str := s.data

/-- ASCII decimal digit test (`0`..`9`, code points 48..57). -/
def isDigitCh (c : Char) : Bool := decide (48 ≤ c.toNat) && decide (c.toNat ≤ 57)

/-- Numeric value of an ASCII digit character. -/
def dval (c : Char) : ℕ := c.toNat - 48

/-- The ASCII digit character for a value `d ≤ 9`. -/
def dChar (d : ℕ) : Char := Char.ofNat (48 + d)

/-- ASCII lower-casing, as `String.prototype.toLowerCase` acts on the
ASCII letters appearing in descriptions and keywords. -/
def lowCh (c : Char) : Char :=
  if 65 ≤ c.toNat && c.toNat ≤ 90 then Char.ofNat (c.toNat + 32) else c

/-- Lower-case a string character-wise. -/
def lowStr (s : Str) : Str := s.map lowCh

/-- Whitespace characters removed by `String.prototype.trim`. -/
def isWSCh (c : Char) : Bool := c == ' ' || c == '\t' || c == '\n' || c == '\r'

/-- `String.prototype.trim`: strip whitespace from both ends. -/
def trimStr (s : Str) : Str :=
  ((s.dropWhile isWSCh).reverse.dropWhile isWSCh).reverse

/-- `String.prototype.split(sep)` for a one-character separator; an empty
string splits to `[""]`, like in JS. -/
def splitCh (sep : Char) : Str → List Str
  | [] => [[]]
  | c :: t =>
    let r := splitCh sep t
    if c == sep then [] :: r
    else
      match r with
      | [] => [[c]]
      | h :: rt => (c :: h) :: rt

/-- Join string pieces with a one-character separator (left inverse of
`splitCh`, used only in proofs). -/
def joinCh (sep : Char) : List Str → Str
  | [] => []
  | [x] => x
  | x :: rest => x ++ sep :: joinCh sep rest

/-- `hay` starts with `needle`. -/
def startsWith : Str → Str → Bool
  | _, [] => true
  | [], _ :: _ => false
  | a :: as, b :: bs => a == b && startsWith as bs

/-- `String.prototype.includes`: `needle` occurs as a contiguous substring
of `hay`. -/
def occursIn (needle : Str) : Str → Bool
  | [] => needle.isEmpty
  | c :: t => startsWith (c :: t) needle || occursIn needle t

/-- Number of occurrences of a character in a string. -/
def countCh (c : Char) : Str → ℕ
  | [] => 0
  | a :: t => (if a == c then 1 else 0) + countCh c t

/-- `String.prototype.includes` specialised to a one-character needle. -/
def hasCh (c : Char) : Str → Bool
  | [] => false
  | a :: t => a == c || hasCh c t

/-- `s.replace(/\./g, "")`: remove every `.` character. -/
def stripDots (s : Str) : Str := s.filter (fun c => !(c == '.'))

/-- `s.replace(",", ".")`: replace the first `,` (if any) by `.`;
`String.prototype.replace` with a string pattern replaces only the first
occurrence. -/
def replaceFirstComma : Str → Str
  | [] => []
  | c :: t => if c == ',' then '.' :: t else c :: replaceFirstComma t

/-- Replace every `,` by `.` (used by the claim-side readings that take
"`,` becomes the decimal point" to mean all commas). -/
def replaceAllCommas (s : Str) : Str := s.map (fun c => if c == ',' then '.' else c)

/-- Numeric value of a digit string, most significant digit first. -/
def strToNat (s : Str) : ℕ := s.foldl (fun n c => n * 10 + dval c) 0

/-- Fuel-indexed decimal printer (structural recursion so that the kernel
can evaluate it; the fuel is always taken larger than the argument). -/
def natToStrAux : ℕ → ℕ → Str
  | 0, _ => []
  | fuel + 1, n => if n < 10 then [dChar n] else natToStrAux fuel (n / 10) ++ [dChar (n % 10)]

/-- Decimal printing of a natural number, as JS `String(n)` for a
non-negative integer. -/
def natToStr (n : ℕ) : Str := natToStrAux (n + 1) n

/-- `String(n).padStart(2, "0")` for a non-negative integer `n`. -/
def pad2 (n : ℕ) : Str := if n < 10 then '0' :: natToStr n else natToStr n

/-- Split an optional leading sign off a string, returning the sign factor
and the remaining body (JS `Number` accepts one leading `+` or `-`). -/
def signSplit (s : Str) : ℚ × Str :=
  match s with
  | [] => (1, [])
  | a :: t => if a = '-' then (-1, t) else if a = '+' then (1, t) else (1, a :: t)

/-- Shape of an unsigned decimal numeral accepted by JS `Number`: at most
one `.`, only digits and `.`, and at least one digit. -/
def numShape (b : Str) : Bool :=
  decide (countCh '.' b ≤ 1) && b.all (fun c => isDigitCh c || c == '.') && b.any isDigitCh

/-- Value of an unsigned decimal numeral (integer part before the first
`.`, fractional part after it). -/
def numVal (b : Str) : ℚ :=
  let ip := b.takeWhile (fun c => !(c == '.'))
  let fp := (b.dropWhile (fun c => !(c == '.'))).drop 1
  (strToNat ip : ℚ) + (strToNat fp : ℚ) / (10 : ℚ) ^ fp.length

/-- JS `Number(s)` on an already-trimmed string, for the plain decimal
notation the import format uses (sign, digits, at most one decimal point).
`Number("") = 0`; a string not of that shape gives `NaN`, modelled as
`none`. -/
def jsNumber (s : Str) : Option ℚ :=
  if s.isEmpty then some 0
  else
    let p := signSplit s
    if numShape p.2 then some (p.1 * numVal p.2) else none

/-- A transaction (`Tx` in `App.tsx`). The `raw` audit field (the original
CSV row) is omitted: no claim depends on it and it is carried around
untouched by the core. -/
structure Tx where
  id : Str
  date : Str
  amount : ℚ
  description : Str
  account : Option Str
  method : Option Str
  category : Option Str
deriving DecidableEq

/-- A categorisation rule (`Rule` in `App.tsx`). -/
structure Rule where
  id : Str
  keywords : Str
  category : Str
  enabled : Bool
  priority : ℚ
deriving DecidableEq

/-- String-keyed maps (JS objects such as the budget map and the
per-category spend map) as association lists in key insertion order. -/
abbrev SMap := List (Str × ℚ)

/-- `m[k] ?? d` on a JS object modelled as an association list: the value
at the first matching key, or the default. -/
def lookupD (m : SMap) (k : Str) (d : ℚ) : ℚ :=
  match m with
  | [] => d
  | (a, x) :: rest => if a == k then x else lookupD rest k d

/-- The fixed category vocabulary (`DEFAULT_CATEGORIES`). -/
def DEFAULT_CATEGORIES : List Str :=
  [chars "Moradia", chars "Alimentação", chars "Transporte", chars "Saúde",
   chars "Educação", chars "Lazer", chars "Compras Pessoais",
   chars "Assinaturas e Serviços", chars "Impostos/Taxas",
   chars "Emergências/Imprevistos", chars "Investimentos/Reserva", chars "Outros"]

-- ---------------------------------------------------------------------------
-- Rule engine (`applyRules`, App.tsx lines 251-271)
-- ---------------------------------------------------------------------------

/-- JS truthiness of `t.category` (`if (t.category) return t;`): the field
is present and a non-empty string. -/
def hasCat (t : Tx) : Bool :=
  match t.category with
  | some s => !s.isEmpty
  | none => false

/-- The search text of a transaction:
`` `${t.description} ${t.account ?? ""}`.toLowerCase() `` — description,
a space, then the account (empty if absent), lower-cased. -/
def descOf (t : Tx) : Str := lowStr (t.description ++ ' ' :: t.account.getD [])

/-- The keyword list of a rule: comma-split, each token trimmed and
lower-cased, empty tokens discarded (`filter(Boolean)`). -/
def keywordList (kw : Str) : List Str :=
  ((splitCh ',' kw).map (fun k => lowStr (trimStr k))).filter (fun k => !k.isEmpty)

/-- `kws.some((k) => desc.includes(k))` for one rule. -/
def ruleMatches (desc : Str) (r : Rule) : Bool :=
  (keywordList r.keywords).any (fun k => occursIn k desc)

/-- Ascending priority order on rules (the comparator
`(a, b) => a.priority - b.priority`). -/
def ruleLE (a b : Rule) : Prop := a.priority ≤ b.priority

instance : DecidableRel ruleLE := fun a b => inferInstanceAs (Decidable (a.priority ≤ b.priority))

instance : IsTotal Rule ruleLE := ⟨fun a b => le_total a.priority b.priority⟩

instance : IsTrans Rule ruleLE := ⟨fun _ _ _ h1 h2 => le_trans h1 h2⟩

/-- `[...rules].filter((x) => x.enabled).sort((a, b) => a.priority - b.priority)`:
the enabled rules, stably sorted by ascending priority. -/
def activeRules (rules : List Rule) : List Rule :=
  List.insertionSort ruleLE (rules.filter (fun x => x.enabled))

/-- The per-transaction body of `applyRules`: pass through a transaction
with a (truthy) category; otherwise assign the category of the first
active rule with a matching keyword, if any. -/
def classifyTx (A : List Rule) (t : Tx) : Tx :=
  if hasCat t then t
  else
    match A.find? (ruleMatches (descOf t)) with
    | some r => { t with category := some r.category }
    | none => t

/-- The pure core of `applyRules(toUpdate)` (the surrounding `setTx` state
write belongs to the persistence collaborator): map the classification
over the transaction list. -/
def applyRules (txs : List Tx) (rules : List Rule) : List Tx :=
  txs.map (classifyTx (activeRules rules))

-- ---------------------------------------------------------------------------
-- Claim-side rule-engine definitions
-- ---------------------------------------------------------------------------

/-- Search text as the claim C3 words it: the description concatenated
directly with the account (empty string if absent), lower-cased — with no
separator between the two. -/
def descClaim (t : Tx) : Str := lowStr (t.description ++ t.account.getD [])

/-- Per-transaction classification following claim C3's words verbatim
(literal concatenation of description and account). -/
def classifyClaim (A : List Rule) (t : Tx) : Tx :=
  if hasCat t then t
  else
    match (A.filter (ruleMatches (descClaim t))).head? with
    | some r => { t with category := some r.category }
    | none => t

/-- The rule engine as claim C3 states it. -/
def applyRulesClaim (txs : List Tx) (rules : List Rule) : List Tx :=
  txs.map (classifyClaim (activeRules rules))

/-- Per-transaction classification following the amended claim: the
description, a single space, and the account are concatenated and
lower-cased; the first active rule (in stable ascending priority order)
with a contained keyword assigns its category. -/
def classifyAmended (A : List Rule) (t : Tx) : Tx :=
  if hasCat t then t
  else
    match (A.filter (ruleMatches (descOf t))).head? with
    | some r => { t with category := some r.category }
    | none => t

/-- The rule engine as the amended claim C3 states it. -/
def applyRulesAmended (txs : List Tx) (rules : List Rule) : List Tx :=
  txs.map (classifyAmended (activeRules rules))

/-- Concrete transaction for the C3 counterexample: description `"ab"`,
account `"cd"`. -/
def txC3 : Tx :=
  { id := chars "t1", date := chars "2025-09-01", amount := -10,
    description := chars "ab", account := some (chars "cd"),
    method := none, category := none }

/-- Concrete rule for the C3 counterexample: keyword `"abcd"` spans the
description/account boundary. -/
def ruleC3 : Rule :=
  { id := chars "r1", keywords := chars "abcd", category := chars "Lazer",
    enabled := true, priority := 1 }

/-- Concrete categorised transaction used by the C1 witness. -/
def txC1 : Tx :=
  { id := chars "w1", date := chars "2025-09-15", amount := -50,
    description := chars "ifood pedido", account := none,
    method := none, category := some (chars "Lazer") }

/-- Concrete rule used by the C1 witness; it would match `txC1`'s
description if the category were not already set. -/
def ruleC1 : Rule :=
  { id := chars "r2", keywords := chars "ifood", category := chars "Alimentação",
    enabled := true, priority := 1 }

-- ---------------------------------------------------------------------------
-- Aggregator (`ym`, `txMonth`, `receitaMes`, `despesaMes`, `gastoPorCategoria`,
-- App.tsx lines 127-130 and 188-211)
-- ---------------------------------------------------------------------------

/-- Gregorian leap year, as `Date` uses. -/
def isLeap (y : ℕ) : Bool :=
  decide (y % 4 = 0) && (decide (¬(y % 100 = 0)) || decide (y % 400 = 0))

/-- Days in a month of the proleptic Gregorian calendar. -/
def daysInMonth (y mo : ℕ) : ℕ :=
  if mo = 2 then (if isLeap y then 29 else 28)
  else if mo = 4 ∨ mo = 6 ∨ mo = 9 ∨ mo = 11 then 30 else 31

/-- Parsing of a `YYYY-MM-DD` string into numeric year, month and day, as
`new Date(s)` accepts it (exact shape and a valid calendar date); any
other string is `none`, modelling an `Invalid Date`. `new Date` on non-ISO
formats is implementation-defined and the app only stores ISO dates, so
the model maps only the ISO shape to a calendar date. -/
def parseISODate (s : Str) : Option (ℕ × ℕ × ℕ) :=
  match splitCh '-' s with
  | [ys, ms, ds] =>
    if ys.length = 4 ∧ ms.length = 2 ∧ ds.length = 2 ∧
        ys.all isDigitCh = true ∧ ms.all isDigitCh = true ∧ ds.all isDigitCh = true then
      let y := strToNat ys
      let mo := strToNat ms
      let da := strToNat ds
      if 1 ≤ mo ∧ mo ≤ 12 ∧ 1 ≤ da ∧ da ≤ daysInMonth y mo then some (y, mo, da) else none
    else none
  | _ => none

/-- `ym(date)` (App.tsx line 127): parse the date and format
`` `${d.getFullYear()}-${String(d.getMonth() + 1).padStart(2, "0")}` ``,
with the environment fixed at UTC; an invalid date has `NaN` fields and
formats as `"NaN-NaN"`. -/
def ym (s : Str) : Str :=
  match parseISODate s with
  | some (y, mo, _) => natToStr y ++ '-' :: pad2 mo
  | none => chars "NaN-NaN"

/-- A date string for which `ym` agrees with its first seven characters:
a valid ISO calendar date whose year has a nonzero leading digit. -/
def goodISO (s : Str) : Bool :=
  match parseISODate s with
  | some (y, _, _) => decide (1000 ≤ y)
  | none => false

/-- `txMonth` (App.tsx line 188): the transactions of the selected month,
in input order. -/
def txMonthFn (txs : List Tx) (month : Str) : List Tx :=
  txs.filter (fun t => ym t.date == month)

/-- `receitaMes` (App.tsx line 191): sum of the positive amounts of the
month. -/
def receitaMes (txs : List Tx) (month : Str) : ℚ :=
  ((txMonthFn txs month).filter (fun t => decide (0 < t.amount))).foldl
    (fun a t => a + t.amount) 0

/-- `despesaMes` (App.tsx line 195): sum of the absolute values of the
negative amounts of the month. -/
def despesaMes (txs : List Tx) (month : Str) : ℚ :=
  ((txMonthFn txs month).filter (fun t => decide (t.amount < 0))).foldl
    (fun a t => a + |t.amount|) 0

/-- `resultadoMes` (App.tsx line 199). -/
def resultadoMes (txs : List Tx) (month : Str) : ℚ :=
  receitaMes txs month - despesaMes txs month

/-- `t.category || "Outros"`: the effective spend bucket of a transaction
(the catch-all `"Outros"` when the category is absent or the empty
string, both falsy in JS). -/
def effCat (t : Tx) : Str :=
  match t.category with
  | some s => if s.isEmpty then chars "Outros" else s
  | none => chars "Outros"

/-- `map[c] = (map[c] || 0) + v` on a JS object: update the entry in
place if the key exists, append it otherwise. -/
def bump (m : SMap) (c : Str) (v : ℚ) : SMap :=
  match m with
  | [] => [(c, v)]
  | (a, x) :: rest => if a == c then (a, x + v) :: rest else (a, x) :: bump rest c v

/-- One step of the `gastoPorCategoria` loop (App.tsx lines 204-209). -/
def gastoStep (m : SMap) (t : Tx) : SMap :=
  if t.amount < 0 then bump m (effCat t) |t.amount| else m

/-- `gastoPorCategoria` (App.tsx line 202): per-category total of the
absolute values of the month's negative amounts. -/
def gastoPorCategoria (txs : List Tx) (month : Str) : SMap :=
  (txMonthFn txs month).foldl gastoStep []

-- ---------------------------------------------------------------------------
-- Budget evaluator (`budgetRows`, App.tsx lines 220-234)
-- ---------------------------------------------------------------------------

/-- The visual status of a budget row (`"verde" | "amarelo" | "vermelho" |
"cinza"`; the spec calls them onTrack, watch, over and neutral). -/
inductive Status where
  | verde
  | amarelo
  | vermelho
  | cinza
deriving DecidableEq

/-- One row of the budget table. -/
structure BudgetRow where
  categoria : Str
  aloc : ℚ
  orcado : ℚ
  gasto : ℚ
  variancia : ℚ
  cumprimento : ℚ
  status : Status
deriving DecidableEq

/-- The body of the `budgetRows` map (App.tsx lines 221-232) for one
category: allocation from the budget map (`?? 0`), budgeted amount
`receitaMes * aloc`, spend from `gastoPorCategoria` (`?? 0`), fulfilment
guarded by the zero division check, and the four-way status chain. -/
def budgetRow (budget : SMap) (receita : ℚ) (gmap : SMap) (c : Str) : BudgetRow :=
  let aloc := lookupD budget c 0
  let orcado := receita * aloc
  let gasto := lookupD gmap c 0
  let cumprimento := if 0 < orcado then gasto / orcado else 0
  { categoria := c, aloc := aloc, orcado := orcado, gasto := gasto,
    variancia := orcado - gasto, cumprimento := cumprimento,
    status :=
      if orcado = 0 ∧ gasto = 0 then Status.cinza
      else if cumprimento < (4 : ℚ) / 5 then Status.verde
      else if cumprimento ≤ 1 then Status.amarelo
      else Status.vermelho }

/-- `budgetRows` (App.tsx line 220): one row per vocabulary category. -/
def budgetRows (budget : SMap) (receita : ℚ) (gmap : SMap) : List BudgetRow :=
  DEFAULT_CATEGORIES.map (budgetRow budget receita gmap)

/-- The fulfilment expression of a budget row as a function of the
budgeted amount and the spend (the zero-division guard of App.tsx line
225), named for use in proofs. -/
def fulfilOf (O G : ℚ) : ℚ := if 0 < O then G / O else 0

/-- The status chain of a budget row (App.tsx lines 227-231) as a
function of the budgeted amount and the spend, named for use in
proofs. -/
def statusOf (O G : ℚ) : Status :=
  if O = 0 ∧ G = 0 then Status.cinza
  else if fulfilOf O G < (4 : ℚ) / 5 then Status.verde
  else if fulfilOf O G ≤ 1 then Status.amarelo
  else Status.vermelho

/-- Budget map for the C4 witness: the whole income to `Moradia`. -/
def budgetW : SMap := [(chars "Moradia", 1)]

/-- Spend map for the C4 witness: 2 spent on `Moradia` against a budget
of 1, fulfilment 2. -/
def gastoW : SMap := [(chars "Moradia", 2)]

-- ---------------------------------------------------------------------------
-- Normalizer: amount parsing (`onImportCSV`, App.tsx lines 306-320)
-- ---------------------------------------------------------------------------

/-- Normalisation of a raw amount field: absent (`undefined`/`null`)
yields 0; otherwise trim, then if the string has both `.` and `,`, strip
every `.` and turn the first `,` into `.`; if it has only `,`, turn the
first `,` into `.`; pass the result to `Number`, an unparseable value
(`NaN`) becoming 0. -/
def parseAmount (raw : Option Str) : ℚ :=
  match raw with
  | none => 0
  | some r =>
    let s := trimStr r
    let s2 :=
      if hasCh '.' s && hasCh ',' s then replaceFirstComma (stripDots s)
      else if hasCh ',' s && !hasCh '.' s then replaceFirstComma s
      else s
    match jsNumber s2 with
    | some q => q
    | none => 0

/-- Amount normalisation as claim C8 words it, reading "`,` becomes the
decimal point" as replacing every comma; extensionally equal to the code,
because a string with two or more commas is unparseable either way. -/
def parseAmountClaim (raw : Option Str) : ℚ :=
  match raw with
  | none => 0
  | some r =>
    let s := trimStr r
    let s2 :=
      if hasCh '.' s && hasCh ',' s then replaceAllCommas (stripDots s)
      else if hasCh ',' s && !hasCh '.' s then replaceAllCommas s
      else s
    match jsNumber s2 with
    | some q => q
    | none => 0

-- ---------------------------------------------------------------------------
-- Normalizer: date parsing (`onImportCSV`, App.tsx lines 291-304)
-- ---------------------------------------------------------------------------

/-- Exact test of the regex `/^\d{4}-\d{2}-\d{2}$/`. -/
def matchISOre (s : Str) : Bool :=
  match s with
  | [a, b, c, d, e, f, g, h2, i, j] =>
    isDigitCh a && isDigitCh b && isDigitCh c && isDigitCh d && e == '-' &&
      isDigitCh f && isDigitCh g && h2 == '-' && isDigitCh i && isDigitCh j
  | _ => false

/-- Exact test of the regex `/^\d{2}\/\d{2}\/\d{4}$/`. -/
def matchBRre (s : Str) : Bool :=
  match s with
  | [a, b, c, d, e, f, g, h2, i, j] =>
    isDigitCh a && isDigitCh b && c == '/' && isDigitCh d && isDigitCh e && f == '/' &&
      isDigitCh g && isDigitCh h2 && isDigitCh i && isDigitCh j
  | _ => false

/-- `DD/MM/YYYY` rearranged to `YYYY-MM-DD` (the split of App.tsx lines
297-298); applied only after the BR regex matched, so the catch-all arm
is never reached. -/
def brToISO (s : Str) : Str :=
  match s with
  | [d1, d2, _, m1, m2, _, y1, y2, y3, y4] => [y1, y2, y3, y4, '-', m1, m2, '-', d1, d2]
  | _ => s

/-- Normalisation of a raw date field (App.tsx lines 292-304). The generic
`new Date(s)` fallback is implementation-defined beyond the ISO formats,
so it is an oracle parameter `jsParse` shared by code-side and claim-side
definitions: `jsParse s` is the `toISOString().slice(0, 10)` of a
successful parse, `none` for an `Invalid Date`; `today` is the current
date string. A falsy (absent or empty) raw field short-circuits to
`today` before any trimming (`if (rawDate)`), and otherwise the trimmed
string is matched. -/
def normalizeDate (raw : Option Str) (today : Str) (jsParse : Str → Option Str) : Str :=
  match raw with
  | none => today
  | some r =>
    if r.isEmpty then today
    else
      let s := trimStr r
      if matchISOre s then s
      else if matchBRre s then brToISO s
      else
        match jsParse s with
        | some d => d
        | none => today

/-- Date normalisation as claim C9 words it: the three steps are tried on
the raw string itself (no trimming, no empty-string short-circuit), and
only a missing field falls back to the current date. -/
def normalizeDateClaim (raw : Option Str) (today : Str) (jsParse : Str → Option Str) : Str :=
  match raw with
  | none => today
  | some s =>
    if matchISOre s then s
    else if matchBRre s then brToISO s
    else
      match jsParse s with
      | some d => d
      | none => today

/-- Date normalisation as the amended claim words it: a missing or empty
raw field yields the current date; otherwise the raw string is trimmed of
surrounding whitespace and the three steps are tried in order on the
trimmed string, generic parse failure yielding the current date. -/
def normalizeDateAmended (raw : Option Str) (today : Str) (jsParse : Str → Option Str) : Str :=
  match raw with
  | none => today
  | some r =>
    if r.isEmpty then today
    else if matchISOre (trimStr r) then trimStr r
    else if matchBRre (trimStr r) then brToISO (trimStr r)
    else (jsParse (trimStr r)).getD today

-- ---------------------------------------------------------------------------
-- Backup export and restore (App.tsx lines 856-867 and 879-893)
-- ---------------------------------------------------------------------------

/-- The three top-level collections of the application. -/
structure AppState where
  tx : List Tx
  budget : SMap
  rules : List Rule
deriving DecidableEq

/-- The backup payload `{ tx, budget, rules }`. JSON serialisation and
parsing are modelled as the identity on this structured payload (faithful
for these JSON-representable records); a collection field is `none` when
its key is absent (or falsy) in the parsed object. -/
structure BackupPayload where
  tx : Option (List Tx)
  budget : Option SMap
  rules : Option (List Rule)
deriving DecidableEq

/-- `const payload = { tx, budget, rules }` (App.tsx line 857): the
exported backup carries all three collections. -/
def makeBackup (st : AppState) : BackupPayload :=
  { tx := some st.tx, budget := some st.budget, rules := some st.rules }

/-- The restore handler (App.tsx lines 882-891): a payload that failed to
parse (`none`) leaves the state untouched and reports the error alert
(`false`); otherwise each collection is replaced wholesale when its key
is present and left untouched when absent, reporting success (`true`). -/
def restoreBackup (st : AppState) (payload : Option BackupPayload) : AppState × Bool :=
  match payload with
  | none => (st, false)
  | some d =>
    ({ tx := d.tx.getD st.tx, budget := d.budget.getD st.budget,
       rules := d.rules.getD st.rules }, true)

/-- Transaction with a valid ISO date whose year is below 1000, for the
C7 counterexample: `new Date("0100-01-15")` is a valid date with
`getFullYear() = 100`, printed unpadded by `ym`. -/
def tx0100 : Tx :=
  { id := chars "x", date := chars "0100-01-15", amount := 1,
    description := chars "d", account := none, method := none, category := none }

/-- September transaction for the C7 witness. -/
def txW7a : Tx :=
  { id := chars "a", date := chars "2025-09-15", amount := 1,
    description := chars "d", account := none, method := none, category := none }

/-- August transaction for the C7 witness. -/
def txW7b : Tx :=
  { id := chars "b", date := chars "2025-08-01", amount := 1,
    description := chars "d", account := none, method := none, category := none }

/-- Generic-parse oracle that fails on every string, as `new Date` does
on `"15/09/2025"`-style strings (month position 15). Used by the C9
counterexample. -/
def jsParseNone : Str → Option Str := fun _ => none

/-- Generic-parse oracle that parses every string to a fixed date. Used
by the C9 counterexample for the empty raw string. -/
def jsParseConst : Str → Option Str := fun _ => some (chars "1988-08-08")

/-- Application state for the C10 witness. -/
def stW : AppState := { tx := [txW7a], budget := [(chars "Moradia", 1)], rules := [ruleC1] }

/-- A second, different application state for the C10 witness. -/
def stW2 : AppState := { tx := [], budget := [], rules := [] }

/-- Partial payload (only `tx` present) for the C10 witness. -/
def pW : BackupPayload := { tx := some [tx0100], budget := none, rules := none }

-- ===========================================================================
-- Theorems
-- ===========================================================================

lemma descOf_set_category (t : Tx) (c : Option Str) :
    descOf { t with category := c } = descOf t := rfl

lemma classifyTx_idem (A : List Rule) (t : Tx) :
    classifyTx A (classifyTx A t) = classifyTx A t := by
  by_cases h : hasCat t
  · simp [classifyTx, h]
  · rcases hf : A.find? (ruleMatches (descOf t)) with _ | r
    · simp [classifyTx, h, hf]
    · have e1 : classifyTx A t = { t with category := some r.category } := by
        simp [classifyTx, h, hf]
      rw [e1]
      by_cases hc : r.category.isEmpty
      · have h2 : hasCat { t with category := some r.category } = false := by
          simp [hasCat, hc]
        simp [classifyTx, h2, descOf_set_category, hf]
      · have h2 : hasCat { t with category := some r.category } = true := by
          simp [hasCat, hc]
        simp [classifyTx, h2]

/-- C1: a transaction whose `category` is already a non-empty string is a
fixed point of the classification (`if (t.category) return t;`), and
`applyRules` is the element-wise map of that classification, so such a
transaction passes through every rule application unchanged. -/
theorem c1_categorized_unchanged (rules : List Rule) (txs : List Tx) (t : Tx) (s : Str)
    (hc : t.category = some s) (hne : s ≠ []) :
    classifyTx (activeRules rules) t = t ∧
      applyRules txs rules = txs.map (classifyTx (activeRules rules)) := by
  have h : hasCat t = true := by
    simp [hasCat, hc, hne]
  exact ⟨by simp [classifyTx, h], rfl⟩

/-- Witness for C1 at a concrete categorised transaction and a rule whose
keyword matches its description. -/
theorem c1_categorized_unchanged_witness :
    classifyTx (activeRules [ruleC1]) txC1 = txC1 :=
  (c1_categorized_unchanged [ruleC1] [txC1] txC1 (chars "Lazer") rfl (by decide)).1

/-- C2: the rule engine is idempotent: applying it twice with the same
rule list equals applying it once. -/
theorem c2_applyRules_idempotent (txs : List Tx) (rules : List Rule) :
    applyRules (applyRules txs rules) rules = applyRules txs rules := by
  unfold applyRules
  rw [List.map_map]
  exact List.map_congr_left fun t _ => classifyTx_idem (activeRules rules) t

lemma find?_eq_head?_filter {α : Type} (q : α → Bool) (l : List α) :
    l.find? q = (l.filter q).head? := by
  induction l with
  | nil => rfl
  | cons a t ih =>
    by_cases h : q a
    · rw [List.find?_cons_of_pos _ h, List.filter_cons_of_pos h]
      rfl
    · rw [List.find?_cons_of_neg _ h, List.filter_cons_of_neg h, ih]

lemma classifyTx_eq_amended (A : List Rule) (t : Tx) :
    classifyTx A t = classifyAmended A t := by
  unfold classifyTx classifyAmended
  rw [find?_eq_head?_filter]

lemma filter_key_orderedInsert (p : ℚ) (a : Rule) (l : List Rule) :
    (List.orderedInsert ruleLE a l).filter (fun r => decide (r.priority = p))
      = if a.priority = p then a :: l.filter (fun r => decide (r.priority = p))
        else l.filter (fun r => decide (r.priority = p)) := by
  induction l with
  | nil =>
    by_cases h : a.priority = p <;> simp [List.orderedInsert, List.filter_cons, h]
  | cons b t ih =>
    by_cases hab : ruleLE a b
    · rw [List.orderedInsert_of_le _ _ hab]
      by_cases h : a.priority = p <;> simp [List.filter_cons, h]
    · have hstep : List.orderedInsert ruleLE a (b :: t) = b :: List.orderedInsert ruleLE a t := by
        simp [List.orderedInsert, hab]
      have hba : b.priority < a.priority := lt_of_not_le hab
      rw [hstep]
      by_cases h : a.priority = p
      · have hbp : ¬(b.priority = p) := by
          intro hb
          exact absurd (hb.trans h.symm ▸ hba) (lt_irrefl _)
        simp [List.filter_cons, hbp, ih, h]
      · by_cases hbp : b.priority = p <;> simp [List.filter_cons, hbp, ih, h]

lemma insertionSort_stable_filter (p : ℚ) (l : List Rule) :
    (List.insertionSort ruleLE l).filter (fun r => decide (r.priority = p))
      = l.filter (fun r => decide (r.priority = p)) := by
  induction l with
  | nil => rfl
  | cons b t ih =>
    simp only [List.insertionSort]
    rw [filter_key_orderedInsert]
    by_cases h : b.priority = p <;> simp [List.filter_cons, h, ih]

lemma classifyTx_cases (A : List Rule) (t : Tx) :
    classifyTx A t = t ∨
      (hasCat t = false ∧ ∃ c, classifyTx A t = { t with category := some c }) := by
  by_cases h : hasCat t
  · left; simp [classifyTx, h]
  · rcases hf : A.find? (ruleMatches (descOf t)) with _ | r
    · left; simp [classifyTx, h, hf]
    · right
      exact ⟨by simpa using h, r.category, by simp [classifyTx, h, hf]⟩

/-- Counterexample to C3 as stated: with description `"ab"` and account
`"cd"`, the claimed literal concatenation is `"abcd"`, which contains the
rule keyword `"abcd"`, so the claim assigns the rule's category; the code
builds the search text with a space between the two fields (`"ab cd"`), so
no rule matches and the transaction stays uncategorised. -/
theorem c3_counterexample :
    applyRulesClaim [txC3] [ruleC3] ≠ applyRules [txC3] [ruleC3] ∧
      (applyRules [txC3] [ruleC3]).map Tx.category = [none] ∧
      (applyRulesClaim [txC3] [ruleC3]).map Tx.category = [some (chars "Lazer")] :=
  ⟨by decide, by decide, by decide⟩

/-- C3 (amended: the search text is the description, a single space, and
the account, lower-cased): `applyRules` equals the amended specification;
it preserves length (and order, being a map); the rules used are the
enabled ones, sorted ascending by priority, stably (equal priorities keep
the relative order of the enabled sublist); and each output element is the
input element unchanged or, for an uncategorised input, with only its
category filled in. -/
theorem c3_engine_spec (txs : List Tx) (rules : List Rule) :
    applyRules txs rules = applyRulesAmended txs rules ∧
      (applyRules txs rules).length = txs.length ∧
      List.Sorted ruleLE (activeRules rules) ∧
      List.Perm (activeRules rules) (rules.filter (fun x => x.enabled)) ∧
      (∀ p : ℚ, (activeRules rules).filter (fun r => decide (r.priority = p))
          = (rules.filter (fun x => x.enabled)).filter (fun r => decide (r.priority = p))) ∧
      (∀ t : Tx, classifyTx (activeRules rules) t = t ∨
          (hasCat t = false ∧
            ∃ c, classifyTx (activeRules rules) t = { t with category := some c })) := by
  refine ⟨?_, ?_, ?_, ?_, ?_, ?_⟩
  · exact List.map_congr_left fun t _ => classifyTx_eq_amended (activeRules rules) t
  · simp [applyRules]
  · exact List.sorted_insertionSort ruleLE _
  · exact List.perm_insertionSort ruleLE _
  · exact fun p => insertionSort_stable_filter p _
  · exact fun t => classifyTx_cases (activeRules rules) t

lemma status_spec_aux (O G : ℚ) :
    (statusOf O G = Status.cinza ↔ O = 0 ∧ G = 0) ∧
      (¬(O = 0 ∧ G = 0) →
        (statusOf O G = Status.verde ↔ fulfilOf O G < (4 : ℚ) / 5) ∧
          (statusOf O G = Status.amarelo ↔
            (4 : ℚ) / 5 ≤ fulfilOf O G ∧ fulfilOf O G ≤ 1) ∧
          (statusOf O G = Status.vermelho ↔ 1 < fulfilOf O G)) ∧
      (O = 0 → 0 < G → fulfilOf O G = 0 ∧ statusOf O G ≠ Status.vermelho) := by
  refine ⟨?_, ?_, ?_⟩
  · by_cases h0 : O = 0 ∧ G = 0
    · simp [statusOf, h0]
    · by_cases hv : fulfilOf O G < (4 : ℚ) / 5
      · simp [statusOf, h0, hv]
      · by_cases ha : fulfilOf O G ≤ 1 <;> simp [statusOf, h0, hv, ha]
  · intro h0
    by_cases hv : fulfilOf O G < (4 : ℚ) / 5
    · have hst : statusOf O G = Status.verde := by simp [statusOf, h0, hv]
      rw [hst]
      refine ⟨iff_of_true rfl hv, iff_of_false (by simp) ?_, iff_of_false (by simp) ?_⟩
      · exact fun hh => absurd hv (not_lt.mpr (by linarith [hh.1]))
      · exact fun hh => absurd hv (not_lt.mpr (by linarith [hh]))
    · by_cases ha : fulfilOf O G ≤ 1
      · have hst : statusOf O G = Status.amarelo := by simp [statusOf, h0, hv, ha]
        rw [hst]
        refine ⟨iff_of_false (by simp) (fun hh => absurd hh hv),
          iff_of_true rfl ⟨not_lt.mp hv, ha⟩,
          iff_of_false (by simp) (fun hh => absurd ha (not_le.mpr hh))⟩
      · have hst : statusOf O G = Status.vermelho := by simp [statusOf, h0, hv, ha]
        rw [hst]
        refine ⟨iff_of_false (by simp) (fun hh => absurd hh hv),
          iff_of_false (by simp) (fun hh => absurd hh.2 ha),
          iff_of_true rfl (not_le.mp ha)⟩
  · intro hO hG
    have hnotpos : ¬(0 < O) := by rw [hO]; exact lt_irrefl 0
    have hcp0 : fulfilOf O G = 0 := by simp [fulfilOf, hnotpos]
    have h0 : ¬(O = 0 ∧ G = 0) := by
      rintro ⟨-, hG0⟩
      exact absurd (hG0 ▸ hG) (lt_irrefl 0)
    have hv : fulfilOf O G < (4 : ℚ) / 5 := by rw [hcp0]; norm_num
    refine ⟨hcp0, ?_⟩
    simp [statusOf, h0, hv]

/-- C4: the budget row status is the four-way classification: `cinza`
(neutral) exactly when the budgeted amount and the spend are both zero;
otherwise `verde` (onTrack) iff fulfilment `< 0.8`, `amarelo` (watch) iff
`0.8 ≤` fulfilment `≤ 1`, `vermelho` (over) iff fulfilment `> 1`; and a
zero budgeted amount with positive spend has fulfilment forced to `0` by
the zero-division guard, so the over branch never triggers. -/
theorem c4_status_classification (b : SMap) (receita : ℚ) (g : SMap) (c : Str) :
    ((budgetRow b receita g c).status = Status.cinza ↔
        (budgetRow b receita g c).orcado = 0 ∧ (budgetRow b receita g c).gasto = 0) ∧
      (¬((budgetRow b receita g c).orcado = 0 ∧ (budgetRow b receita g c).gasto = 0) →
        ((budgetRow b receita g c).status = Status.verde ↔
            (budgetRow b receita g c).cumprimento < (4 : ℚ) / 5) ∧
          ((budgetRow b receita g c).status = Status.amarelo ↔
            (4 : ℚ) / 5 ≤ (budgetRow b receita g c).cumprimento ∧
              (budgetRow b receita g c).cumprimento ≤ 1) ∧
          ((budgetRow b receita g c).status = Status.vermelho ↔
            1 < (budgetRow b receita g c).cumprimento)) ∧
      ((budgetRow b receita g c).orcado = 0 → 0 < (budgetRow b receita g c).gasto →
        (budgetRow b receita g c).cumprimento = 0 ∧
          (budgetRow b receita g c).status ≠ Status.vermelho) := by
  have hO : (budgetRow b receita g c).orcado = receita * lookupD b c 0 := rfl
  have hG : (budgetRow b receita g c).gasto = lookupD g c 0 := rfl
  have hCP : (budgetRow b receita g c).cumprimento =
      fulfilOf (receita * lookupD b c 0) (lookupD g c 0) := rfl
  have hS : (budgetRow b receita g c).status =
      statusOf (receita * lookupD b c 0) (lookupD g c 0) := rfl
  rw [hO, hG, hCP, hS]
  exact status_spec_aux (receita * lookupD b c 0) (lookupD g c 0)

/-- Witness for C4 at allocation 1, monthly income 1, spend 2: fulfilment
is `2 > 1`, so the status is `vermelho`. -/
theorem c4_status_classification_witness :
    (budgetRow budgetW 1 gastoW (chars "Moradia")).status = Status.vermelho :=
  (((c4_status_classification budgetW 1 gastoW (chars "Moradia")).2.1
      (by simp [budgetRow, budgetW, gastoW, lookupD])).2.2).mpr
    (by simp [budgetRow, budgetW, gastoW, lookupD, one_lt_two])

/-- C5: the budget row formulas: allocation is the category's budget
fraction (0 if absent), budgeted amount is allocation times monthly
income, spend is the category's aggregated spend (0 if absent), variance
is budgeted minus spent, fulfilment is spent over budgeted guarded at
zero; and the table has one such row per vocabulary category. -/
theorem c5_budget_row_formulas (b : SMap) (receita : ℚ) (g : SMap) (c : Str) :
    (budgetRow b receita g c).aloc = lookupD b c 0 ∧
      (budgetRow b receita g c).orcado = (budgetRow b receita g c).aloc * receita ∧
      (budgetRow b receita g c).gasto = lookupD g c 0 ∧
      (budgetRow b receita g c).variancia =
        (budgetRow b receita g c).orcado - (budgetRow b receita g c).gasto ∧
      (budgetRow b receita g c).cumprimento =
        (if 0 < (budgetRow b receita g c).orcado
          then (budgetRow b receita g c).gasto / (budgetRow b receita g c).orcado else 0) ∧
      budgetRows b receita g = DEFAULT_CATEGORIES.map (budgetRow b receita g) :=
  ⟨rfl, mul_comm receita (lookupD b c 0), rfl, rfl, rfl, rfl⟩

lemma foldl_add_map (f : Tx → ℚ) (l : List Tx) (a : ℚ) :
    l.foldl (fun x t => x + f t) a = a + (l.map f).sum := by
  induction l generalizing a with
  | nil => simp
  | cons t l ih => simp [ih, add_assoc]

lemma lookupD_bump (m : SMap) (c k : Str) (v : ℚ) :
    lookupD (bump m c v) k 0 = lookupD m k 0 + (if c = k then v else 0) := by
  induction m with
  | nil =>
    by_cases h : c = k <;> simp [bump, lookupD, beq_iff_eq, h]
  | cons p rest ih =>
    obtain ⟨a, x⟩ := p
    by_cases hac : a = c
    · subst hac
      have hbump : bump ((a, x) :: rest) a v = (a, x + v) :: rest := by
        simp [bump]
      rw [hbump]
      by_cases hak : a = k
      · subst hak
        simp [lookupD]
      · simp [lookupD, beq_iff_eq, hak]
    · have hbump : bump ((a, x) :: rest) c v = (a, x) :: bump rest c v := by
        simp [bump, beq_iff_eq, hac]
      rw [hbump]
      by_cases hak : a = k
      · have hck : ¬(c = k) := fun h => hac (hak.trans h.symm)
        simp [lookupD, beq_iff_eq, hak, hck]
      · simp [lookupD, beq_iff_eq, hak, ih]

lemma gasto_fold (l : List Tx) (m : SMap) (k : Str) :
    lookupD (l.foldl gastoStep m) k 0
      = lookupD m k 0 +
        ((l.filter (fun t => decide (t.amount < 0) && (effCat t == k))).map
          (fun t => |t.amount|)).sum := by
  induction l generalizing m with
  | nil => simp
  | cons t l ih =>
    rw [List.foldl_cons, ih]
    by_cases hneg : t.amount < 0
    · by_cases hcat : effCat t = k
      · have : gastoStep m t = bump m (effCat t) |t.amount| := by simp [gastoStep, hneg]
        rw [this, lookupD_bump]
        simp [hneg, hcat, add_assoc]
      · have : gastoStep m t = bump m (effCat t) |t.amount| := by simp [gastoStep, hneg]
        rw [this, lookupD_bump]
        simp [hneg, hcat]
    · have : gastoStep m t = m := by simp [gastoStep, hneg]
      rw [this]
      simp [hneg]

/-- C6: over the month's subset, `receitaMes` is the sum of the positive
amounts, `despesaMes` the sum of the absolute values of the negative
amounts, `resultadoMes` their difference, and `gastoPorCategoria` maps
each bucket (a transaction's category, or `"Outros"` when it is unset) to
the total absolute spend of the negative-amount transactions of exactly
that bucket. -/
theorem c6_month_aggregates (txs : List Tx) (month : Str) :
    receitaMes txs month =
        (((txMonthFn txs month).filter (fun t => decide (0 < t.amount))).map
          (fun t => t.amount)).sum ∧
      despesaMes txs month =
        (((txMonthFn txs month).filter (fun t => decide (t.amount < 0))).map
          (fun t => |t.amount|)).sum ∧
      resultadoMes txs month = receitaMes txs month - despesaMes txs month ∧
      ∀ k : Str, lookupD (gastoPorCategoria txs month) k 0 =
        (((txMonthFn txs month).filter
            (fun t => decide (t.amount < 0) && (effCat t == k))).map
          (fun t => |t.amount|)).sum := by
  refine ⟨?_, ?_, rfl, ?_⟩
  · simp [receitaMes, foldl_add_map]
  · simp [despesaMes, foldl_add_map]
  · intro k
    simp [gastoPorCategoria, gasto_fold, lookupD]

lemma natToStrAux_congr : ∀ (f g n : ℕ), n < f → n < g → natToStrAux f n = natToStrAux g n := by
  intro f
  induction f with
  | zero => intro g n h1 _; exact (Nat.not_lt_zero n h1).elim
  | succ f ih =>
    intro g n h1 h2
    cases g with
    | zero => exact (Nat.not_lt_zero n h2).elim
    | succ g1 =>
      by_cases h : n < 10
      · simp [natToStrAux, h]
      · simp only [natToStrAux, if_neg h]
        rw [ih g1 (n / 10) (by omega) (by omega)]

lemma natToStr_lt10 (n : ℕ) (h : n < 10) : natToStr n = [dChar n] := by
  simp [natToStr, natToStrAux, h]

lemma natToStr_step (n : ℕ) (h : 10 ≤ n) :
    natToStr n = natToStr (n / 10) ++ [dChar (n % 10)] := by
  have h2 : natToStrAux (n + 1) n = natToStrAux n (n / 10) ++ [dChar (n % 10)] := by
    simp only [natToStrAux, if_neg (by omega : ¬ n < 10)]
  show natToStrAux (n + 1) n = natToStrAux (n / 10 + 1) (n / 10) ++ [dChar (n % 10)]
  rw [h2, natToStrAux_congr n (n / 10 + 1) (n / 10) (by omega) (by omega)]

lemma natToStr_two (n : ℕ) (h1 : 10 ≤ n) (h2 : n < 100) :
    natToStr n = [dChar (n / 10), dChar (n % 10)] := by
  rw [natToStr_step n h1, natToStr_lt10 (n / 10) (by omega)]
  rfl

lemma natToStr_three (n : ℕ) (h1 : 100 ≤ n) (h2 : n < 1000) :
    natToStr n = [dChar (n / 100), dChar (n / 10 % 10), dChar (n % 10)] := by
  rw [natToStr_step n (by omega), natToStr_two (n / 10) (by omega) (by omega)]
  have e1 : n / 10 / 10 = n / 100 := by omega
  rw [e1]
  rfl

lemma natToStr_four (n : ℕ) (h1 : 1000 ≤ n) (h2 : n < 10000) :
    natToStr n = [dChar (n / 1000), dChar (n / 100 % 10), dChar (n / 10 % 10), dChar (n % 10)] := by
  rw [natToStr_step n (by omega), natToStr_three (n / 10) (by omega) (by omega)]
  have e1 : n / 10 / 100 = n / 1000 := by omega
  have e2 : n / 10 / 10 % 10 = n / 100 % 10 := by omega
  rw [e1, e2]
  rfl

lemma isDigitCh_bounds (c : Char) (h : isDigitCh c = true) : 48 ≤ c.toNat ∧ c.toNat ≤ 57 := by
  simpa [isDigitCh] using h

lemma dval_lt10 (c : Char) (h : isDigitCh c = true) : dval c < 10 := by
  have hb := isDigitCh_bounds c h
  simp only [dval]
  omega

lemma dChar_dval (c : Char) (h : isDigitCh c = true) : dChar (dval c) = c := by
  have hb := isDigitCh_bounds c h
  have he : 48 + dval c = c.toNat := by
    simp only [dval]
    omega
  rw [dChar, he, Char.ofNat_toNat]

lemma splitCh_ne_nil (sep : Char) (s : Str) : splitCh sep s ≠ [] := by
  cases s with
  | nil => simp [splitCh]
  | cons c t =>
    by_cases h : c == sep
    · simp [splitCh, h]
    · rcases hs : splitCh sep t with _ | ⟨a, r⟩ <;> simp [splitCh, h, hs]

lemma joinCh_splitCh (sep : Char) (s : Str) : joinCh sep (splitCh sep s) = s := by
  induction s with
  | nil => rfl
  | cons c t ih =>
    by_cases h : c == sep
    · have hc : c = sep := by simpa using h
      have hstep : splitCh sep (c :: t) = [] :: splitCh sep t := by simp [splitCh, h]
      rw [hstep]
      rcases hs : splitCh sep t with _ | ⟨a, r⟩
      · exact absurd hs (splitCh_ne_nil sep t)
      · rw [hs] at ih
        show ([] : Str) ++ sep :: joinCh sep (a :: r) = c :: t
        rw [List.nil_append, ih, hc]
    · rcases hs : splitCh sep t with _ | ⟨a, r⟩
      · exact absurd hs (splitCh_ne_nil sep t)
      · have hstep : splitCh sep (c :: t) = (c :: a) :: r := by simp [splitCh, h, hs]
        rw [hstep]
        rw [hs] at ih
        have key : ∀ (r1 : List Str), joinCh sep ((c :: a) :: r1) = c :: joinCh sep (a :: r1) := by
          intro r1
          cases r1 <;> simp [joinCh]
        rw [key, ih]

lemma exists_two (l : Str) (h : l.length = 2) : ∃ a b, l = [a, b] := by
  cases l with
  | nil => simp at h
  | cons a l1 =>
    cases l1 with
    | nil => simp at h
    | cons b l2 =>
      cases l2 with
      | nil => exact ⟨a, b, rfl⟩
      | cons c l3 => simp at h

lemma exists_four (l : Str) (h : l.length = 4) : ∃ a b c d, l = [a, b, c, d] := by
  cases l with
  | nil => simp at h
  | cons a l1 =>
    cases l1 with
    | nil => simp at h
    | cons b l2 =>
      cases l2 with
      | nil => simp at h
      | cons c l3 =>
        cases l3 with
        | nil => simp at h
        | cons d l4 =>
          cases l4 with
          | nil => exact ⟨a, b, c, d, rfl⟩
          | cons e l5 => simp at h

lemma ym_eq_take7 (s : Str) (h : goodISO s = true) : ym s = s.take 7 := by
  rcases hp : parseISODate s with _ | ⟨y, mo, da⟩
  · rw [goodISO, hp] at h
    simp at h
  · rw [goodISO, hp] at h
    have hy : 1000 ≤ y := by simpa using h
    have hym : ym s = natToStr y ++ '-' :: pad2 mo := by
      simp only [ym, hp]
    rcases hsp : splitCh '-' s with _ | ⟨ys, rest1⟩
    · exact absurd hsp (splitCh_ne_nil '-' s)
    rcases rest1 with _ | ⟨ms, rest2⟩
    · simp only [parseISODate, hsp] at hp
      exact absurd hp (by simp)
    rcases rest2 with _ | ⟨ds, rest3⟩
    · simp only [parseISODate, hsp] at hp
      exact absurd hp (by simp)
    rcases rest3 with _ | ⟨z, rest4⟩
    · -- the three-piece case: splitCh '-' s = [ys, ms, ds]
      simp only [parseISODate, hsp] at hp
      split_ifs at hp with hcond hrange
      · obtain ⟨hy4, hm2, hd2, hyd, hmd, hdd⟩ := hcond
        simp only [Option.some.injEq, Prod.mk.injEq] at hp
        obtain ⟨hpy, hpm, hpd⟩ := hp
        obtain ⟨y1, y2, y3, y4, hys⟩ := exists_four ys hy4
        obtain ⟨m1, m2, hms⟩ := exists_two ms hm2
        subst hys hms hpy hpm
        simp only [List.all_cons, List.all_nil, Bool.and_eq_true, and_true] at hyd hmd
        obtain ⟨hdy1, hdy2, hdy3, hdy4⟩ := hyd
        obtain ⟨hdm1, hdm2⟩ := hmd
        have hv1 := dval_lt10 y1 hdy1
        have hv2 := dval_lt10 y2 hdy2
        have hv3 := dval_lt10 y3 hdy3
        have hv4 := dval_lt10 y4 hdy4
        have hvm1 := dval_lt10 m1 hdm1
        have hvm2 := dval_lt10 m2 hdm2
        have hyval : strToNat [y1, y2, y3, y4]
            = ((dval y1 * 10 + dval y2) * 10 + dval y3) * 10 + dval y4 := by
          simp [strToNat]
        have hmval : strToNat [m1, m2] = dval m1 * 10 + dval m2 := by
          simp [strToNat]
        have hseq : s = [y1, y2, y3, y4] ++ '-' :: ([m1, m2] ++ '-' :: ds) := by
          have hj := joinCh_splitCh '-' s
          rw [hsp] at hj
          simpa [joinCh] using hj.symm
        have hmole : strToNat [m1, m2] ≤ 12 := hrange.2.1
        have hmoge : 1 ≤ strToNat [m1, m2] := hrange.1
        have hylt : strToNat [y1, y2, y3, y4] < 10000 := by
          rw [hyval]
          omega
        have hyge : 1000 ≤ strToNat [y1, y2, y3, y4] := hy
        have hyPrint : natToStr (strToNat [y1, y2, y3, y4]) = [y1, y2, y3, y4] := by
          rw [natToStr_four _ hyge hylt, hyval]
          have e1 : (((dval y1 * 10 + dval y2) * 10 + dval y3) * 10 + dval y4) / 1000
              = dval y1 := by omega
          have e2 : (((dval y1 * 10 + dval y2) * 10 + dval y3) * 10 + dval y4) / 100 % 10
              = dval y2 := by omega
          have e3 : (((dval y1 * 10 + dval y2) * 10 + dval y3) * 10 + dval y4) / 10 % 10
              = dval y3 := by omega
          have e4 : (((dval y1 * 10 + dval y2) * 10 + dval y3) * 10 + dval y4) % 10
              = dval y4 := by omega
          rw [e1, e2, e3, e4, dChar_dval y1 hdy1, dChar_dval y2 hdy2, dChar_dval y3 hdy3,
            dChar_dval y4 hdy4]
        have hmPrint : pad2 (strToNat [m1, m2]) = [m1, m2] := by
          rw [hmval]
          by_cases hlt : dval m1 * 10 + dval m2 < 10
          · have hm10 : dval m1 = 0 := by omega
            have hm2v : dval m1 * 10 + dval m2 = dval m2 := by omega
            rw [pad2, if_pos hlt, natToStr_lt10 _ hlt, hm2v, dChar_dval m2 hdm2]
            have hm1c : m1 = dChar 0 := by
              rw [← hm10, dChar_dval m1 hdm1]
            rw [hm1c]
            rfl
          · rw [pad2, if_neg hlt, natToStr_two _ (by omega) (by omega)]
            have e1 : (dval m1 * 10 + dval m2) / 10 = dval m1 := by omega
            have e2 : (dval m1 * 10 + dval m2) % 10 = dval m2 := by omega
            rw [e1, e2, dChar_dval m1 hdm1, dChar_dval m2 hdm2]
        rw [hym, hyPrint, hmPrint, hseq]
        rfl
    · -- more than three pieces
      simp only [parseISODate, hsp] at hp
      exact absurd hp (by simp)

/-- Counterexample to C7 as stated: `"0100-01-15"` is a valid ISO calendar
date whose year-month is the target `"0100-01"`, but `ym` prints
`getFullYear() = 100` without padding (`"100-01"`), so the transaction is
not placed in its month. -/
theorem c7_counterexample :
    txMonthFn [tx0100] (chars "0100-01") = [] ∧
      (tx0100.date.take 7 == chars "0100-01") = true ∧
      parseISODate tx0100.date = some (100, 1, 15) :=
  ⟨by decide, by decide, by decide⟩

/-- C7 (amended: restricted to dates whose four-digit year is at least
1000, since `ym` prints smaller years unpadded): `monthTransactions` is
exactly the subset of transactions whose ISO date's year-month (its first
seven characters) equals the target month, with input order preserved by
the filter. -/
theorem c7_month_filter (txs : List Tx) (month : Str)
    (h : ∀ t ∈ txs, goodISO t.date = true) :
    txMonthFn txs month = txs.filter (fun t => t.date.take 7 == month) := by
  unfold txMonthFn
  apply List.filter_congr
  intro t ht
  rw [ym_eq_take7 t.date (h t ht)]

/-- Witness for C7 at two concrete transactions, one inside and one
outside the selected month. -/
theorem c7_month_filter_witness :
    txMonthFn [txW7a, txW7b] (chars "2025-09")
      = [txW7a, txW7b].filter (fun t => t.date.take 7 == chars "2025-09") :=
  c7_month_filter [txW7a, txW7b] (chars "2025-09") (by decide)

lemma hasCh_iff_mem (c : Char) (s : Str) : hasCh c s = true ↔ c ∈ s := by
  induction s with
  | nil => simp [hasCh]
  | cons a t ih =>
    by_cases h : a = c
    · subst h
      simp [hasCh]
    · have hca : ¬(c = a) := fun hh => h hh.symm
      simp [hasCh, beq_iff_eq, h, hca, ih]

lemma countCh_pos_iff_mem (c : Char) (s : Str) : 1 ≤ countCh c s ↔ c ∈ s := by
  induction s with
  | nil => simp [countCh]
  | cons a t ih =>
    by_cases h : a = c
    · subst h
      simp [countCh]
    · have hca : ¬(c = a) := fun hh => h hh.symm
      simp [countCh, beq_iff_eq, h, hca, ih]

lemma replaceAll_cons (a : Char) (t : Str) :
    replaceAllCommas (a :: t) = (if a = ',' then '.' else a) :: replaceAllCommas t := by
  by_cases ha : a = ','
  · subst ha
    simp [replaceAllCommas]
  · simp [replaceAllCommas, ha]

lemma replaceAll_id (s : Str) (h : countCh ',' s = 0) : replaceAllCommas s = s := by
  induction s with
  | nil => rfl
  | cons a t ih =>
    by_cases ha : a = ','
    · subst ha
      simp [countCh] at h
    · have ht : countCh ',' t = 0 := by
        simp [countCh, beq_iff_eq, ha] at h
        exact h
      rw [replaceAll_cons, if_neg ha, ih ht]

lemma replaceFirst_eq_replaceAll (s : Str) (h : countCh ',' s ≤ 1) :
    replaceFirstComma s = replaceAllCommas s := by
  induction s with
  | nil => rfl
  | cons a t ih =>
    by_cases ha : a = ','
    · subst ha
      have ht : countCh ',' t = 0 := by
        simp [countCh] at h
        omega
      have e : replaceFirstComma (',' :: t) = '.' :: t := by simp [replaceFirstComma]
      rw [e, replaceAll_cons, if_pos rfl, replaceAll_id t ht]
    · have ht : countCh ',' t ≤ 1 := by
        simp [countCh, beq_iff_eq, ha] at h
        exact h
      have e1 : replaceFirstComma (a :: t) = a :: replaceFirstComma t := by
        simp [replaceFirstComma, beq_iff_eq, ha]
      rw [e1, replaceAll_cons, if_neg ha, ih ht]

lemma mem_replaceFirst_of_two (s : Str) (h : 2 ≤ countCh ',' s) :
    ',' ∈ replaceFirstComma s := by
  induction s with
  | nil => simp [countCh] at h
  | cons a t ih =>
    by_cases ha : a = ','
    · subst ha
      have ht : 1 ≤ countCh ',' t := by
        simp [countCh] at h
        omega
      show ',' ∈ ('.' :: t : Str)
      exact List.mem_cons_of_mem _ ((countCh_pos_iff_mem ',' t).mp ht)
    · have ht : 2 ≤ countCh ',' t := by
        simp [countCh, beq_iff_eq, ha] at h
        exact h
      have e1 : replaceFirstComma (a :: t) = a :: replaceFirstComma t := by
        simp [replaceFirstComma, beq_iff_eq, ha]
      rw [e1]
      exact List.mem_cons_of_mem _ (ih ht)

lemma countCh_stripDots_comma (s : Str) : countCh ',' (stripDots s) = countCh ',' s := by
  induction s with
  | nil => rfl
  | cons a t ih =>
    by_cases ha : a = '.'
    · subst ha
      have e : stripDots ('.' :: t) = stripDots t := by simp [stripDots]
      rw [e, ih]
      simp [countCh]
    · have e : stripDots (a :: t) = a :: stripDots t := by simp [stripDots, ha]
      rw [e]
      simp [countCh, ih]

lemma countCh_stripDots_dot (s : Str) : countCh '.' (stripDots s) = 0 := by
  induction s with
  | nil => rfl
  | cons a t ih =>
    by_cases ha : a = '.'
    · subst ha
      have e : stripDots ('.' :: t) = stripDots t := by simp [stripDots]
      rw [e, ih]
    · have e : stripDots (a :: t) = a :: stripDots t := by simp [stripDots, ha]
      rw [e]
      simp [countCh, beq_iff_eq, ha, ih]

lemma countCh_replaceAll_dot (s : Str) :
    countCh '.' (replaceAllCommas s) = countCh '.' s + countCh ',' s := by
  induction s with
  | nil => rfl
  | cons a t ih =>
    by_cases ha : a = ','
    · subst ha
      have e : replaceAllCommas (',' :: t) = '.' :: replaceAllCommas t := rfl
      rw [e]
      simp [countCh, ih]
      omega
    · rw [replaceAll_cons, if_neg ha]
      simp [countCh, beq_iff_eq, ha, ih]
      omega

lemma comma_not_shape (b : Str) (h : ',' ∈ b) : numShape b = false := by
  have hcontra : ¬(b.all (fun c => isDigitCh c || c == '.') = true) := by
    intro hb
    have h2 := List.all_eq_true.mp hb ',' h
    simp [isDigitCh] at h2
  have hall : b.all (fun c => isDigitCh c || c == '.') = false :=
    Bool.eq_false_iff.mpr hcontra
  simp [numShape, hall]

lemma jsNumber_comma_none (s : Str) (h : ',' ∈ s) : jsNumber s = none := by
  cases s with
  | nil => cases h
  | cons a t =>
    have hbody : ',' ∈ (signSplit (a :: t)).2 := by
      by_cases h1 : a = '-'
      · subst h1
        have ht : ',' ∈ t := by
          rcases List.mem_cons.mp h with h2 | h2
          · exact absurd h2 (by decide)
          · exact h2
        simpa [signSplit] using ht
      · by_cases h2 : a = '+'
        · subst h2
          have ht : ',' ∈ t := by
            rcases List.mem_cons.mp h with h3 | h3
            · exact absurd h3 (by decide)
            · exact h3
          simpa [signSplit] using ht
        · simpa [signSplit, h1, h2] using h
    have hshape := comma_not_shape _ hbody
    simp [jsNumber, hshape]

lemma twoDots_not_shape (b : Str) (h : 2 ≤ countCh '.' b) : numShape b = false := by
  have hc : ¬(countCh '.' b ≤ 1) := by omega
  have hd : decide (countCh '.' b ≤ 1) = false := decide_eq_false hc
  simp [numShape, hd]

lemma jsNumber_twoDots_none (s : Str) (h : 2 ≤ countCh '.' s) : jsNumber s = none := by
  cases s with
  | nil => simp [countCh] at h
  | cons a t =>
    have hbody : 2 ≤ countCh '.' (signSplit (a :: t)).2 := by
      by_cases h1 : a = '-'
      · subst h1
        simp [countCh] at h
        simpa [signSplit] using h
      · by_cases h2 : a = '+'
        · subst h2
          simp [countCh] at h
          simpa [signSplit] using h
        · simpa [signSplit, h1, h2] using h
    have hshape := twoDots_not_shape _ hbody
    simp [jsNumber, hshape]

lemma parseAmount_eq_claim (raw : Option Str) : parseAmount raw = parseAmountClaim raw := by
  cases raw with
  | none => rfl
  | some r =>
    simp only [parseAmount, parseAmountClaim]
    by_cases hd : hasCh '.' (trimStr r) = true <;> by_cases hc : hasCh ',' (trimStr r) = true
    · simp only [hd, hc, Bool.and_self, if_true]
      by_cases h1 : countCh ',' (stripDots (trimStr r)) ≤ 1
      · rw [replaceFirst_eq_replaceAll _ h1]
      · have h2 : 2 ≤ countCh ',' (stripDots (trimStr r)) := by omega
        rw [jsNumber_comma_none _ (mem_replaceFirst_of_two _ h2),
          jsNumber_twoDots_none _ (by
            rw [countCh_replaceAll_dot, countCh_stripDots_dot]
            omega)]
    · rw [Bool.not_eq_true] at hc
      simp [hd, hc]
    · rw [Bool.not_eq_true] at hd
      simp only [hd, hc, Bool.true_and, Bool.and_false, Bool.false_and, Bool.not_false,
        Bool.and_true, if_true, if_false, Bool.false_eq_true]
      by_cases h1 : countCh ',' (trimStr r) ≤ 1
      · rw [replaceFirst_eq_replaceAll _ h1]
      · have h2 : 2 ≤ countCh ',' (trimStr r) := by omega
        have h0 : countCh '.' (trimStr r) = 0 := by
          by_contra hne
          have hpos : 1 ≤ countCh '.' (trimStr r) := by omega
          have hmem := (countCh_pos_iff_mem '.' (trimStr r)).mp hpos
          rw [← hasCh_iff_mem, hd] at hmem
          exact Bool.false_ne_true hmem
        rw [jsNumber_comma_none _ (mem_replaceFirst_of_two _ h2),
          jsNumber_twoDots_none _ (by rw [countCh_replaceAll_dot]; omega)]
    · rw [Bool.not_eq_true] at hd hc
      simp [hd, hc]

/-- C8: amount normalisation follows the three decimal-separator
conventions of the claim (proved as extensional equality with the
claim-side definition, which replaces every comma — equal to the code
because two or more commas are unparseable either way), `"1.234,56"`
parses to `1234.56`, `"723,11"` to `723.11`, a leading `-` is preserved,
and an unparseable amount normalises to `0`. -/
theorem c8_amount_normalization :
    (∀ raw : Option Str, parseAmount raw = parseAmountClaim raw) ∧
      parseAmount (some (chars "1.234,56")) = 123456 / 100 ∧
      parseAmount (some (chars "723,11")) = 72311 / 100 ∧
      parseAmount (some (chars "-1.234,56")) = -(123456 / 100) ∧
      parseAmount (some (chars "abc")) = 0 := by
  refine ⟨parseAmount_eq_claim, ?_, ?_, ?_, ?_⟩
  · have b1 : trimStr (chars "1.234,56") = chars "1.234,56" := by decide
    have b2 : (hasCh '.' (chars "1.234,56") && hasCh ',' (chars "1.234,56")) = true := by decide
    have b3 : replaceFirstComma (stripDots (chars "1.234,56")) = chars "1234.56" := by decide
    have e0 : (chars "1234.56").isEmpty = false := by decide
    have e3 : numShape (chars "1234.56") = true := by decide
    have e4 : signSplit (chars "1234.56") = (1, chars "1234.56") := by decide
    have e1 : (chars "1234.56").takeWhile (fun c => !(c == '.')) = chars "1234" := by decide
    have e2 : ((chars "1234.56").dropWhile (fun c => !(c == '.'))).drop 1 = chars "56" := by
      decide
    have s1 : strToNat (chars "1234") = 1234 := by decide
    have s2 : strToNat (chars "56") = 56 := by decide
    have s3 : (chars "56").length = 2 := by decide
    simp only [parseAmount, b1, b2, b3, jsNumber, e0, e4, e3, numVal, e1, e2, s1, s2, s3,
      Bool.false_eq_true, if_true, if_false]
    norm_num
  · have b1 : trimStr (chars "723,11") = chars "723,11" := by decide
    have b2 : (hasCh '.' (chars "723,11") && hasCh ',' (chars "723,11")) = false := by decide
    have b2a : (hasCh ',' (chars "723,11") && !hasCh '.' (chars "723,11")) = true := by decide
    have b3 : replaceFirstComma (chars "723,11") = chars "723.11" := by decide
    have e0 : (chars "723.11").isEmpty = false := by decide
    have e3 : numShape (chars "723.11") = true := by decide
    have e4 : signSplit (chars "723.11") = (1, chars "723.11") := by decide
    have e1 : (chars "723.11").takeWhile (fun c => !(c == '.')) = chars "723" := by decide
    have e2 : ((chars "723.11").dropWhile (fun c => !(c == '.'))).drop 1 = chars "11" := by
      decide
    have s1 : strToNat (chars "723") = 723 := by decide
    have s2 : strToNat (chars "11") = 11 := by decide
    have s3 : (chars "11").length = 2 := by decide
    simp only [parseAmount, b1, b2, b2a, b3, jsNumber, e0, e4, e3, numVal, e1, e2, s1, s2, s3,
      Bool.false_eq_true, if_true, if_false]
    norm_num
  · have b1 : trimStr (chars "-1.234,56") = chars "-1.234,56" := by decide
    have b2 : (hasCh '.' (chars "-1.234,56") && hasCh ',' (chars "-1.234,56")) = true := by
      decide
    have b3 : replaceFirstComma (stripDots (chars "-1.234,56")) = chars "-1234.56" := by decide
    have e0 : (chars "-1234.56").isEmpty = false := by decide
    have e3 : numShape (chars "1234.56") = true := by decide
    have e4 : signSplit (chars "-1234.56") = (-1, chars "1234.56") := by decide
    have e1 : (chars "1234.56").takeWhile (fun c => !(c == '.')) = chars "1234" := by decide
    have e2 : ((chars "1234.56").dropWhile (fun c => !(c == '.'))).drop 1 = chars "56" := by
      decide
    have s1 : strToNat (chars "1234") = 1234 := by decide
    have s2 : strToNat (chars "56") = 56 := by decide
    have s3 : (chars "56").length = 2 := by decide
    simp only [parseAmount, b1, b2, b3, jsNumber, e0, e4, e3, numVal, e1, e2, s1, s2, s3,
      Bool.false_eq_true, if_true, if_false]
    norm_num
  · have b1 : trimStr (chars "abc") = chars "abc" := by decide
    have b2 : (hasCh '.' (chars "abc") && hasCh ',' (chars "abc")) = false := by decide
    have b2a : (hasCh ',' (chars "abc") && !hasCh '.' (chars "abc")) = false := by decide
    have e0 : (chars "abc").isEmpty = false := by decide
    have e3 : numShape (chars "abc") = false := by decide
    have e4 : signSplit (chars "abc") = (1, chars "abc") := by decide
    simp only [parseAmount, b1, b2, b2a, jsNumber, e0, e4, e3,
      Bool.false_eq_true, if_true, if_false]

/-- Counterexample to C9 as stated: the code trims the raw string and
checks JS truthiness before the three steps, the claim does not. First
input: `" 15/09/2025"` (leading space) — the code trims and rearranges it
to `"2025-09-15"`, while under the claim it matches neither exact pattern
and falls to generic parsing (here an oracle that fails on it, as JS does
for day 15 in US month position), yielding the current date. Second
input: the empty string — the code short-circuits to the current date,
while the claim hands it to the generic parser (here an oracle that
returns a date). -/
theorem c9_counterexample :
    normalizeDateClaim (some (chars " 15/09/2025")) (chars "2099-01-01") jsParseNone
        ≠ normalizeDate (some (chars " 15/09/2025")) (chars "2099-01-01") jsParseNone ∧
      normalizeDate (some (chars " 15/09/2025")) (chars "2099-01-01") jsParseNone
        = chars "2025-09-15" ∧
      normalizeDateClaim (some []) (chars "2099-01-01") jsParseConst
        ≠ normalizeDate (some []) (chars "2099-01-01") jsParseConst :=
  ⟨by decide, by decide, by decide⟩

/-- C9 (amended: a missing or empty raw date field yields the current
date, and the three steps are applied to the trimmed raw string): date
normalisation tries, in order, the exact `YYYY-MM-DD` pattern kept as-is,
the exact `DD/MM/YYYY` pattern rearranged with no range validation, then
generic parsing with the current date on failure — for every raw field,
current date and generic-parse oracle. -/
theorem c9_date_normalization (raw : Option Str) (today : Str) (jsParse : Str → Option Str) :
    normalizeDate raw today jsParse = normalizeDateAmended raw today jsParse := by
  cases raw with
  | none => rfl
  | some r =>
    by_cases he : r.isEmpty
    · simp [normalizeDate, normalizeDateAmended, he]
    · rcases hj : jsParse (trimStr r) with _ | d <;>
        simp [normalizeDate, normalizeDateAmended, he, hj]

/-- C10: restoring the exported backup payload restores the full state
(in particular the transaction list, order and fields preserved); restore
replaces each of the three collections exactly when its key is present in
the payload and leaves it untouched when absent; and an unparseable
payload reports an error and changes nothing. -/
theorem c10_backup_restore (st st' : AppState) :
    (restoreBackup st' (some (makeBackup st))).1 = st ∧
      (∀ p : BackupPayload,
        (∀ l, p.tx = some l → (restoreBackup st (some p)).1.tx = l) ∧
          (p.tx = none → (restoreBackup st (some p)).1.tx = st.tx) ∧
          (∀ b, p.budget = some b → (restoreBackup st (some p)).1.budget = b) ∧
          (p.budget = none → (restoreBackup st (some p)).1.budget = st.budget) ∧
          (∀ rl, p.rules = some rl → (restoreBackup st (some p)).1.rules = rl) ∧
          (p.rules = none → (restoreBackup st (some p)).1.rules = st.rules)) ∧
      restoreBackup st none = (st, false) := by
  refine ⟨rfl, ?_, rfl⟩
  intro p
  refine ⟨?_, ?_, ?_, ?_, ?_, ?_⟩
  · intro l hl
    simp [restoreBackup, hl]
  · intro hl
    simp [restoreBackup, hl]
  · intro b hb
    simp [restoreBackup, hb]
  · intro hb
    simp [restoreBackup, hb]
  · intro rl hr
    simp [restoreBackup, hr]
  · intro hr
    simp [restoreBackup, hr]

/-- Witness for C10: a full round trip between two different states, and
a partial payload that replaces only the transaction list. -/
theorem c10_backup_restore_witness :
    (restoreBackup stW2 (some (makeBackup stW))).1 = stW ∧
      (restoreBackup stW (some pW)).1.tx = [tx0100] ∧
      (restoreBackup stW (some pW)).1.budget = stW.budget := by
  have h := c10_backup_restore stW stW2
  exact ⟨h.1, (h.2.1 pW).1 [tx0100] rfl, (h.2.1 pW).2.2.2.1 rfl⟩

end Financeiro
